import Mathlib

/-!
Verification development for AXFR2Route53.py.

The script performs an AXFR zone transfer, selects the record sets of one
requested (class, type), aggregates same-name records into one entry per
fully-qualified owner name, maps each entry to an UPSERT change, partitions
the change list into batches of at most 98 operations, and submits the
batches in order to the Route 53 API.

The embedding below mirrors the body of AXFR2Route53.update_records
(src/AXFR2Route53.py, lines 66-161).  Machine-level details that cannot
affect the verified properties are noted where they are abstracted:
  * a dnspython rdataset is modelled as its (rdclass, rdtype, ttl) data
    plus the list of rendered value strings (str(rds) for each rdata);
  * the script stores the TTL as str(rdataset.ttl) and reads it back with
    int(...); since that round-trips on the natural number TTL we keep Nat;
  * the Python dict adict is modelled as an association list in insertion
    order; the claims proved below do not depend on the relative order of
    distinct keys, only on per-key contents and on the key set;
  * submission effects are modelled by a success oracle per batch index:
    an exception from the boto3 call aborts the loop, which the recursion
    in submitBatches reflects.
-/

/-- One dnspython rdataset: class code, type code, TTL, and the rendered
value strings of its rdatas. -/
structure Rdataset where
  rdclass : Nat
  rdtype : Nat
  ttl : Nat
  values : List String
deriving DecidableEq

/-- One zone node: the record sets held by one owner name. -/
structure DnsNode where
  rdatasets : List Rdataset
deriving DecidableEq

/-- node.get_rdataset(rdclass=..., rdtype=...): the record set of the node
matching the requested class and type, if any (line 108). -/
def DnsNode.get_rdataset (n : DnsNode) (rdclass rdtype : Nat) : Option Rdataset :=
  n.rdatasets.find? (fun r => r.rdclass == rdclass && r.rdtype == rdtype)

/-- The transferred zone: owner names (as rendered by str(name)) with their
nodes, in the iteration order of z.nodes.items(). -/
structure Zone where
  nodes : List (String × DnsNode)
deriving DecidableEq

/-- One value of adict: the accumulated value list and the stored TTL
(adict[recordname] = {'records': [...], 'ttl': ...}, lines 119-123). -/
structure AggEntry where
  records : List String
  ttl : Nat
deriving DecidableEq

/-- One element of dns_changes (lines 129-136): an UPSERT change for one
resource record set. -/
structure ChangeOp where
  action : String
  name : String
  rtype : String
  ttl : Nat
  values : List String
deriving DecidableEq

/-- One extracted record: fully-qualified owner name, one rendered value,
and the TTL of its record set. -/
structure Rec where
  name : String
  value : String
  ttl : Nat
deriving DecidableEq

/-- The type-dispatch chain of lines 76-105: maps the requested type string
to the dnspython (rdtype, rdclass) constants, or nothing for the final
else branch (unsupported type).  Codes are the dnspython numeric values. -/
def recordTypeCode : String → Option (Nat × Nat)
  | "A" => some (1, 1)
  | "AAAA" => some (28, 1)
  | "CNAME" => some (5, 1)
  | "MX" => some (15, 1)
  | "NS" => some (2, 1)
  | "PTR" => some (12, 1)
  | "SPF" => some (99, 1)
  | "TXT" => some (16, 1)
  | "SRV" => some (33, 1)
  | _ => none

/-- Lookup in the association-list model of adict
(the `recordname in adict` test and `adict[recordname]` access). -/
def lookupA : List (String × AggEntry) → String → Option AggEntry
  | [], _ => none
  | (k, e) :: rest, n => if k = n then some e else lookupA rest n

/-- adict[recordname]['records'].append(ipaddr) (line 119): append the value
to the entry already stored under the name; the stored TTL is untouched. -/
def appendValue : List (String × AggEntry) → String → String →
    List (String × AggEntry)
  | [], _, _ => []
  | (k, e) :: rest, n, v =>
    if k = n then (k, ⟨e.records ++ [v], e.ttl⟩) :: appendValue rest n v
    else (k, e) :: appendValue rest n v

/-- Lines 117-123: if the name is already a key, append the value; otherwise
create the entry with a one-element list and record the TTL.  Note the TTL
is written only in the creation branch. -/
def insertRecord (adict : List (String × AggEntry)) (n v : String) (ttl : Nat) :
    List (String × AggEntry) :=
  match lookupA adict n with
  | some _ => appendValue adict n v
  | none => adict ++ [(n, ⟨[v], ttl⟩)]

/-- The body of the `for name, node in z.nodes.items()` loop (lines 106-123)
for one node: select the record set of the requested class and type (a
missing record set skips the node; an empty one contributes nothing, as
`if not rdataset` does), then fold the per-value loop, skipping the literal
apex name and inserting each value under name.domain. . -/
def processNode (domain : String) (rdclass rdtype : Nat)
    (adict : List (String × AggEntry)) (p : String × DnsNode) :
    List (String × AggEntry) :=
  match p.2.get_rdataset rdclass rdtype with
  | none => adict
  | some rds =>
    rds.values.foldl (fun d v =>
      if p.1 = "@" then d
      else insertRecord d (p.1 ++ "." ++ domain ++ ".") v rds.ttl) adict

/-- adict as built by the nested loops of lines 106-123, starting from the
empty dict of line 67. -/
def buildADict (z : Zone) (domain : String) (rdclass rdtype : Nat) :
    List (String × AggEntry) :=
  z.nodes.foldl (processNode domain rdclass rdtype) []

/-- Lines 125-136: map every adict entry to one UPSERT change carrying the
key as Name, the requested type string, the stored TTL, and the accumulated
value list. -/
def buildChanges (adict : List (String × AggEntry)) (recordtype : String) :
    List ChangeOp :=
  adict.map (fun p => ⟨"UPSERT", p.1, recordtype, p.2.ttl, p.2.records⟩)

/-- The list comprehension of lines 148-149:
dns_changes[x:x+98] for x in xrange(0, len(dns_changes), 98). -/
def chunks98 {α : Type} : List α → List (List α)
  | [] => []
  | x :: xs => ((x :: xs).take 98) :: chunks98 ((x :: xs).drop 98)
termination_by l => l.length
decreasing_by
  simp [List.length_drop]
  omega

/-- Lines 145-161: a list longer than 98 is cut into chunks of 98; otherwise
the whole list is submitted as the single batch (also when it is empty). -/
def buildBatches (changes : List ChangeOp) : List (List ChangeOp) :=
  if changes.length > 98 then chunks98 changes else [changes]

/-- The three terminal failures of update_records that belong to the core
pipeline: line 71 (zone has no nodes), line 103 (unsupported type string),
line 137 (no records of the requested type). -/
inductive PipelineError where
  | emptyZone
  | unsupportedType
  | noMatchingRecords
deriving DecidableEq

/-- The pipeline of update_records from the transferred zone to the batch
list handed to the submission loop (lines 66-161).  An error value means the
corresponding SystemExit fired, so no call to the destination API is made
(boto3.client is only created at line 144, after every check). -/
def update_records (z : Zone) (domain recordtype : String) :
    Except PipelineError (List (List ChangeOp)) :=
  if z.nodes.length = 0 then .error .emptyZone
  else
    match recordTypeCode recordtype with
    | none => .error .unsupportedType
    | some (rdtype, rdclass) =>
      let adict := buildADict z domain rdclass rdtype
      let dns_changes := buildChanges adict recordtype
      if dns_changes.length = 0 then .error .noMatchingRecords
      else .ok (buildBatches dns_changes)

/-- The submission loop of lines 151-156: batches are attempted in order;
the boto3 call for index i either succeeds (ok i) or raises, which aborts
the loop.  The result is the list of indices actually submitted. -/
def submitBatches {β : Type} (ok : Nat → Bool) : List β → Nat → List Nat
  | [], _ => []
  | _ :: rest, i => if ok i then i :: submitBatches ok rest (i + 1) else [i]

/-- The records one node contributes to the extraction (the Record Extractor
view of the loop of lines 106-123, before aggregation). -/
def nodeRecords (domain : String) (rdclass rdtype : Nat) (p : String × DnsNode) :
    List Rec :=
  match p.2.get_rdataset rdclass rdtype with
  | none => []
  | some rds =>
    if p.1 = "@" then []
    else rds.values.map (fun v => ⟨p.1 ++ "." ++ domain ++ ".", v, rds.ttl⟩)

/-- The flat record sequence extracted from the zone for the requested
class and type: matching, non-apex records in encounter order. -/
def extractRecords (z : Zone) (domain : String) (rdclass rdtype : Nat) :
    List Rec :=
  (z.nodes.map (nodeRecords domain rdclass rdtype)).flatten

/-- Folding the per-record insertion of lines 117-123 over a record list. -/
def foldlAgg (adict : List (String × AggEntry)) (recs : List Rec) :
    List (String × AggEntry) :=
  recs.foldl (fun d r => insertRecord d r.name r.value r.ttl) adict

/-- The Record Aggregator: the insertion fold started from the empty dict. -/
def aggregate (recs : List Rec) : List (String × AggEntry) :=
  foldlAgg [] recs

/-- The keys of the aggregation dict, in insertion order. -/
def keysOf (adict : List (String × AggEntry)) : List String :=
  adict.map Prod.fst

/-- The values carried by records of one owner name, in encounter order. -/
def valuesOf (n : String) : List Rec → List String
  | [] => []
  | r :: rest => if r.name = n then r.value :: valuesOf n rest else valuesOf n rest

/-- The first record of a given owner name in a record list. -/
def firstRec (n : String) : List Rec → Option Rec
  | [] => none
  | r :: rest => if r.name = n then some r else firstRec n rest

/-- Deduplication keeping first occurrences, relative to names already seen. -/
def firstSeenAux (seen : List String) : List String → List String
  | [] => []
  | n :: rest =>
    if n ∈ seen then firstSeenAux seen rest
    else n :: firstSeenAux (seen ++ [n]) rest

/-- The distinct elements of a list in first-seen order. -/
def firstSeen (l : List String) : List String :=
  firstSeenAux [] l

/-- Sample change operation for one A record. -/
def chg1 : ChangeOp :=
  ⟨"UPSERT", "host1.example.com.", "A", 300, ["10.0.0.1"]⟩

/-- Sample zone: one node host1 holding one IN A record set. -/
def zoneA : Zone :=
  ⟨[("host1", ⟨[⟨1, 1, 300, ["10.0.0.1"]⟩]⟩)]⟩

/-- Sample zone with no nodes. -/
def zoneEmpty : Zone :=
  ⟨[]⟩

/-- Sample record sequence: the same owner name twice with differing TTLs. -/
def recsTTL : List Rec :=
  [⟨"a.example.com.", "10.0.0.1", 300⟩, ⟨"a.example.com.", "10.0.0.2", 60⟩]

/-- Sample one-element change list. -/
def changes1 : List ChangeOp :=
  [chg1]

/-! ### Lookup and insertion lemmas for the aggregation dict -/

theorem lookupA_appendValue_other (d : List (String × AggEntry)) (n v k : String)
    (hk : k ≠ n) : lookupA (appendValue d n v) k = lookupA d k := by
  induction d with
  | nil => rfl
  | cons p rest ih =>
    obtain ⟨k₁, e₁⟩ := p
    by_cases h₁ : k₁ = n <;> by_cases h₂ : k₁ = k <;>
      simp_all [appendValue, lookupA]

theorem lookupA_appendValue_self (d : List (String × AggEntry)) (n v : String)
    (e : AggEntry) (h : lookupA d n = some e) :
    lookupA (appendValue d n v) n = some ⟨e.records ++ [v], e.ttl⟩ := by
  induction d with
  | nil => simp [lookupA] at h
  | cons p rest ih =>
    obtain ⟨k₁, e₁⟩ := p
    by_cases h₁ : k₁ = n <;> simp_all [appendValue, lookupA]

theorem lookupA_append_single_self (d : List (String × AggEntry)) (n : String)
    (e : AggEntry) (h : lookupA d n = none) :
    lookupA (d ++ [(n, e)]) n = some e := by
  induction d with
  | nil => simp [lookupA]
  | cons p rest ih =>
    obtain ⟨k₁, e₁⟩ := p
    by_cases h₁ : k₁ = n <;> simp_all [lookupA]

theorem lookupA_append_single_other (d : List (String × AggEntry)) (n k : String)
    (e : AggEntry) (hk : k ≠ n) :
    lookupA (d ++ [(n, e)]) k = lookupA d k := by
  induction d with
  | nil =>
    simp only [List.nil_append, lookupA, if_neg (fun h : n = k => hk h.symm)]
  | cons p rest ih =>
    obtain ⟨k₁, e₁⟩ := p
    by_cases h₁ : k₁ = k <;> simp_all [lookupA]

theorem lookupA_insertRecord_self_present (d : List (String × AggEntry))
    (n v : String) (t : Nat) (e : AggEntry) (h : lookupA d n = some e) :
    lookupA (insertRecord d n v t) n = some ⟨e.records ++ [v], e.ttl⟩ := by
  simp only [insertRecord, h]
  exact lookupA_appendValue_self d n v e h

theorem lookupA_insertRecord_self_new (d : List (String × AggEntry))
    (n v : String) (t : Nat) (h : lookupA d n = none) :
    lookupA (insertRecord d n v t) n = some ⟨[v], t⟩ := by
  simp only [insertRecord, h]
  exact lookupA_append_single_self d n _ h

theorem lookupA_insertRecord_other (d : List (String × AggEntry))
    (n v : String) (t : Nat) (k : String) (hk : k ≠ n) :
    lookupA (insertRecord d n v t) k = lookupA d k := by
  simp only [insertRecord]
  cases h : lookupA d n with
  | some e => exact lookupA_appendValue_other d n v k hk
  | none => exact lookupA_append_single_other d n k _ hk

/-! ### Characterization of the aggregation fold -/

theorem foldlAgg_nil (d : List (String × AggEntry)) : foldlAgg d [] = d := rfl

theorem foldlAgg_cons (d : List (String × AggEntry)) (r : Rec) (recs : List Rec) :
    foldlAgg d (r :: recs) = foldlAgg (insertRecord d r.name r.value r.ttl) recs :=
  rfl

theorem foldlAgg_lookup_present (recs : List Rec) (d : List (String × AggEntry))
    (n : String) (e : AggEntry) (h : lookupA d n = some e) :
    lookupA (foldlAgg d recs) n = some ⟨e.records ++ valuesOf n recs, e.ttl⟩ := by
  induction recs generalizing d e with
  | nil => simp [foldlAgg_nil, valuesOf, h]
  | cons r recs ih =>
    rw [foldlAgg_cons]
    by_cases hr : r.name = n
    · have h' :
          lookupA (insertRecord d r.name r.value r.ttl) n
            = some ⟨e.records ++ [r.value], e.ttl⟩ := by
        rw [hr]
        exact lookupA_insertRecord_self_present d n r.value r.ttl e h
      rw [ih _ _ h']
      simp [valuesOf, hr, List.append_assoc]
    · have h' :
          lookupA (insertRecord d r.name r.value r.ttl) n = some e := by
        rw [lookupA_insertRecord_other d r.name r.value r.ttl n
          (fun hc => hr hc.symm)]
        exact h
      rw [ih _ _ h']
      simp [valuesOf, hr]

theorem foldlAgg_lookup_new (recs : List Rec) (d : List (String × AggEntry))
    (n : String) (r₀ : Rec) (hd : lookupA d n = none)
    (hf : firstRec n recs = some r₀) :
    lookupA (foldlAgg d recs) n = some ⟨valuesOf n recs, r₀.ttl⟩ := by
  induction recs generalizing d with
  | nil => simp [firstRec] at hf
  | cons r recs ih =>
    rw [foldlAgg_cons]
    by_cases hr : r.name = n
    · have hr₀ : r₀ = r := by
        simp [firstRec, hr] at hf
        exact hf.symm
      have h' :
          lookupA (insertRecord d r.name r.value r.ttl) n
            = some ⟨[r.value], r.ttl⟩ := by
        rw [hr]
        exact lookupA_insertRecord_self_new d n r.value r.ttl hd
      rw [foldlAgg_lookup_present recs _ n _ h']
      simp [valuesOf, hr, hr₀]
    · have h' :
          lookupA (insertRecord d r.name r.value r.ttl) n = none := by
        rw [lookupA_insertRecord_other d r.name r.value r.ttl n
          (fun hc => hr hc.symm)]
        exact hd
      simp only [firstRec, if_neg hr] at hf
      rw [ih _ h' hf]
      simp [valuesOf, hr]

theorem foldlAgg_lookup_absent (recs : List Rec) (d : List (String × AggEntry))
    (n : String) (hd : lookupA d n = none) (hf : firstRec n recs = none) :
    lookupA (foldlAgg d recs) n = none := by
  induction recs generalizing d with
  | nil => simpa [foldlAgg_nil] using hd
  | cons r recs ih =>
    rw [foldlAgg_cons]
    by_cases hr : r.name = n
    · simp [firstRec, hr] at hf
    · simp only [firstRec, if_neg hr] at hf
      have h' :
          lookupA (insertRecord d r.name r.value r.ttl) n = none := by
        rw [lookupA_insertRecord_other d r.name r.value r.ttl n
          (fun hc => hr hc.symm)]
        exact hd
      exact ih _ h' hf

/-! ### Key-set lemmas -/

theorem keysOf_appendValue (d : List (String × AggEntry)) (n v : String) :
    keysOf (appendValue d n v) = keysOf d := by
  induction d with
  | nil => rfl
  | cons p rest ih =>
    obtain ⟨k₁, e₁⟩ := p
    by_cases h₁ : k₁ = n <;> simp_all [appendValue, keysOf]

theorem lookupA_eq_none_iff (d : List (String × AggEntry)) (n : String) :
    lookupA d n = none ↔ n ∉ keysOf d := by
  induction d with
  | nil => simp [lookupA, keysOf]
  | cons p rest ih =>
    obtain ⟨k₁, e₁⟩ := p
    simp only [lookupA, keysOf, List.map_cons, List.mem_cons]
    by_cases h₁ : k₁ = n
    · simp [h₁]
    · simp only [if_neg h₁]
      rw [ih]
      constructor
      · intro h hc
        rcases hc with hc | hc
        · exact h₁ hc.symm
        · exact h hc
      · intro h hc
        exact h (Or.inr hc)

theorem keysOf_insertRecord_present (d : List (String × AggEntry))
    (n v : String) (t : Nat) (e : AggEntry) (h : lookupA d n = some e) :
    keysOf (insertRecord d n v t) = keysOf d := by
  simp only [insertRecord, h]
  exact keysOf_appendValue d n v

theorem keysOf_insertRecord_new (d : List (String × AggEntry))
    (n v : String) (t : Nat) (h : lookupA d n = none) :
    keysOf (insertRecord d n v t) = keysOf d ++ [n] := by
  simp [insertRecord, h, keysOf]

theorem foldlAgg_keys (recs : List Rec) (d : List (String × AggEntry)) :
    keysOf (foldlAgg d recs)
      = keysOf d ++ firstSeenAux (keysOf d) (recs.map Rec.name) := by
  induction recs generalizing d with
  | nil => simp [foldlAgg_nil, firstSeenAux]
  | cons r recs ih =>
    rw [foldlAgg_cons]
    by_cases hmem : r.name ∈ keysOf d
    · have hs : ∃ e, lookupA d r.name = some e := by
        cases h : lookupA d r.name with
        | none => exact absurd ((lookupA_eq_none_iff d r.name).mp h) (by simpa)
        | some e => exact ⟨e, rfl⟩
      obtain ⟨e, he⟩ := hs
      rw [ih, keysOf_insertRecord_present d r.name r.value r.ttl e he]
      simp [firstSeenAux, hmem]
    · have he : lookupA d r.name = none := (lookupA_eq_none_iff d r.name).mpr hmem
      rw [ih, keysOf_insertRecord_new d r.name r.value r.ttl he]
      simp [firstSeenAux, hmem, List.append_assoc]

theorem firstSeenAux_disjoint (l : List String) (seen : List String) :
    ∀ x ∈ firstSeenAux seen l, x ∉ seen := by
  induction l generalizing seen with
  | nil => simp [firstSeenAux]
  | cons n rest ih =>
    intro x hx
    by_cases hn : n ∈ seen
    · simp only [firstSeenAux, if_pos hn] at hx
      exact ih seen x hx
    · simp only [firstSeenAux, if_neg hn] at hx
      rcases List.mem_cons.mp hx with hx1 | hx1
      · subst hx1
        exact hn
      · intro hxs
        exact ih (seen ++ [n]) x hx1 (by simp [hxs])

theorem firstSeenAux_nodup (l : List String) (seen : List String) :
    (firstSeenAux seen l).Nodup := by
  induction l generalizing seen with
  | nil => simp [firstSeenAux]
  | cons n rest ih =>
    by_cases hn : n ∈ seen
    · simp only [firstSeenAux, if_pos hn]
      exact ih seen
    · simp only [firstSeenAux, if_neg hn]
      refine List.nodup_cons.mpr ⟨?_, ih (seen ++ [n])⟩
      intro hmem
      exact firstSeenAux_disjoint rest (seen ++ [n]) n hmem (by simp)

theorem firstSeenAux_subset (l : List String) (seen : List String) :
    ∀ x ∈ firstSeenAux seen l, x ∈ l := by
  induction l generalizing seen with
  | nil => simp [firstSeenAux]
  | cons n rest ih =>
    intro x hx
    by_cases hn : n ∈ seen
    · simp only [firstSeenAux, if_pos hn] at hx
      exact List.mem_cons_of_mem n (ih seen x hx)
    · simp only [firstSeenAux, if_neg hn] at hx
      rcases List.mem_cons.mp hx with hx1 | hx1
      · simp [hx1]
      · exact List.mem_cons_of_mem n (ih (seen ++ [n]) x hx1)

/-! ### The nested node loop equals aggregating the extracted records -/

theorem foldl_const {γ σ : Type} (acc : γ) (l : List σ) :
    l.foldl (fun d _ => d) acc = acc := by
  induction l generalizing acc with
  | nil => rfl
  | cons x xs ih => exact ih acc

theorem foldlAgg_append (d : List (String × AggEntry)) (l₁ l₂ : List Rec) :
    foldlAgg d (l₁ ++ l₂) = foldlAgg (foldlAgg d l₁) l₂ := by
  simp [foldlAgg, List.foldl_append]

theorem processNode_eq_foldlAgg (domain : String) (rdclass rdtype : Nat)
    (adict : List (String × AggEntry)) (p : String × DnsNode) :
    processNode domain rdclass rdtype adict p
      = foldlAgg adict (nodeRecords domain rdclass rdtype p) := by
  unfold processNode nodeRecords
  cases hg : p.2.get_rdataset rdclass rdtype with
  | none => rfl
  | some rds =>
    show rds.values.foldl (fun d v => if p.1 = "@" then d
          else insertRecord d (p.1 ++ "." ++ domain ++ ".") v rds.ttl) adict
        = foldlAgg adict (if p.1 = "@" then [] else rds.values.map
            (fun v => ⟨p.1 ++ "." ++ domain ++ ".", v, rds.ttl⟩))
    by_cases ha : p.1 = "@"
    · have hstep : (fun (d : List (String × AggEntry)) (v : String) =>
          if p.1 = "@" then d
          else insertRecord d (p.1 ++ "." ++ domain ++ ".") v rds.ttl)
            = fun d _ => d := by
        funext d v
        simp [ha]
      rw [hstep, foldl_const]
      simp [ha, foldlAgg_nil]
    · have hstep : (fun (d : List (String × AggEntry)) (v : String) =>
          if p.1 = "@" then d
          else insertRecord d (p.1 ++ "." ++ domain ++ ".") v rds.ttl)
            = fun d v => insertRecord d (p.1 ++ "." ++ domain ++ ".") v rds.ttl := by
        funext d v
        simp [ha]
      rw [hstep]
      simp only [if_neg ha, foldlAgg, List.foldl_map]

theorem buildADict_eq_aggregate (z : Zone) (domain : String)
    (rdclass rdtype : Nat) :
    buildADict z domain rdclass rdtype
      = aggregate (extractRecords z domain rdclass rdtype) := by
  suffices h : ∀ (nodes : List (String × DnsNode)) (acc : List (String × AggEntry)),
      nodes.foldl (processNode domain rdclass rdtype) acc
        = foldlAgg acc ((nodes.map (nodeRecords domain rdclass rdtype)).flatten) by
    exact h z.nodes []
  intro nodes
  induction nodes with
  | nil => intro acc; rfl
  | cons p rest ih =>
    intro acc
    simp only [List.foldl_cons, List.map_cons, List.flatten_cons]
    rw [foldlAgg_append, ← processNode_eq_foldlAgg]
    exact ih (processNode domain rdclass rdtype acc p)

theorem nodeRecords_apex (domain : String) (rdclass rdtype : Nat)
    (node : DnsNode) :
    nodeRecords domain rdclass rdtype ("@", node) = [] := by
  unfold nodeRecords
  cases ("@", node).2.get_rdataset rdclass rdtype <;> simp

theorem extractRecords_name_shape (z : Zone) (domain : String)
    (rdclass rdtype : Nat) :
    ∀ r ∈ extractRecords z domain rdclass rdtype,
      ∃ nm, ¬ nm = "@" ∧ r.name = nm ++ "." ++ domain ++ "." := by
  intro r hr
  simp only [extractRecords, List.mem_flatten, List.mem_map] at hr
  obtain ⟨l, ⟨p, hp, hl⟩, hrl⟩ := hr
  subst hl
  unfold nodeRecords at hrl
  cases hg : p.2.get_rdataset rdclass rdtype with
  | none => simp [hg] at hrl
  | some rds =>
    rw [hg] at hrl
    by_cases ha : p.1 = "@"
    · simp [ha] at hrl
    · simp only [if_neg ha, List.mem_map] at hrl
      obtain ⟨v, hv, hveq⟩ := hrl
      exact ⟨p.1, ha, by rw [← hveq]⟩

/-! ### Batching lemmas -/

theorem chunks98_flatten {α : Type} (l : List α) : (chunks98 l).flatten = l := by
  induction l using chunks98.induct with
  | case1 => simp [chunks98]
  | case2 x xs ih =>
    rw [chunks98]
    simp only [List.flatten_cons, ih]
    exact List.take_append_drop 98 (x :: xs)

theorem chunks98_length {α : Type} (l : List α) :
    (chunks98 l).length = (l.length + 97) / 98 := by
  induction l using chunks98.induct with
  | case1 => simp [chunks98]
  | case2 x xs ih =>
    rw [chunks98]
    simp only [List.length_cons, ih, List.length_drop]
    omega

theorem chunks98_sizes {α : Type} (l : List α) :
    ∀ b ∈ chunks98 l, b.length ≤ 98 := by
  induction l using chunks98.induct with
  | case1 => simp [chunks98]
  | case2 x xs ih =>
    intro b hb
    rw [chunks98] at hb
    rcases List.mem_cons.mp hb with hb1 | hb1
    · subst hb1
      simp [List.length_take]
    · exact ih b hb1

/-! ### Submission-loop lemmas -/

theorem submitBatches_eq_range {β : Type} (ok : Nat → Bool) (bs : List β) :
    ∀ i, submitBatches ok bs i = List.range' i (submitBatches ok bs i).length := by
  induction bs with
  | nil => intro i; rfl
  | cons b rest ih =>
    intro i
    cases hok : ok i with
    | true =>
      have hu : submitBatches ok (b :: rest) i = i :: submitBatches ok rest (i + 1) := by
        simp [submitBatches, hok]
      rw [hu, List.length_cons, List.range'_succ, ← ih (i + 1)]
    | false =>
      have hu : submitBatches ok (b :: rest) i = [i] := by
        simp [submitBatches, hok]
      rw [hu]
      simp [List.range'_succ]

theorem submitBatches_mem_ok {β : Type} (ok : Nat → Bool) (bs : List β) :
    ∀ i j, j ∈ submitBatches ok bs i → ∀ m, i ≤ m → m < j → ok m = true := by
  induction bs with
  | nil => intro i j hj; simp [submitBatches] at hj
  | cons b rest ih =>
    intro i j hj m him hmj
    cases hok : ok i with
    | true =>
      have hj' : j = i ∨ j ∈ submitBatches ok rest (i + 1) := by
        have hu : submitBatches ok (b :: rest) i
            = i :: submitBatches ok rest (i + 1) := by
          simp [submitBatches, hok]
        rw [hu] at hj
        exact List.mem_cons.mp hj
      rcases hj' with hj1 | hj1
      · omega
      · by_cases hmi : m = i
        · rw [hmi]; exact hok
        · exact ih (i + 1) j hj1 m (by omega) hmj
    | false =>
      have hu : submitBatches ok (b :: rest) i = [i] := by
        simp [submitBatches, hok]
      rw [hu] at hj
      simp only [List.mem_singleton] at hj
      omega

/-! ### Change-mapping lemmas -/

theorem buildChanges_forall2 (adict : List (String × AggEntry)) (rt : String) :
    List.Forall₂ (fun (p : String × AggEntry) (c : ChangeOp) =>
        c.action = "UPSERT" ∧ c.name = p.1 ∧ c.rtype = rt ∧
        c.ttl = p.2.ttl ∧ c.values = p.2.records)
      adict (buildChanges adict rt) := by
  induction adict with
  | nil => exact List.Forall₂.nil
  | cons p rest ih => exact List.Forall₂.cons ⟨rfl, rfl, rfl, rfl, rfl⟩ ih

theorem buildADict_key_shape (z : Zone) (domain : String) (rdclass rdtype : Nat) :
    ∀ k e, (k, e) ∈ buildADict z domain rdclass rdtype →
      ∃ nm, ¬ nm = "@" ∧ k = nm ++ "." ++ domain ++ "." := by
  intro k e hke
  have hk : k ∈ keysOf (buildADict z domain rdclass rdtype) :=
    List.mem_map_of_mem Prod.fst hke
  rw [buildADict_eq_aggregate] at hk
  simp only [aggregate] at hk
  rw [foldlAgg_keys] at hk
  simp only [keysOf, List.map_nil, List.nil_append] at hk
  have hk2 := firstSeenAux_subset _ [] k hk
  obtain ⟨r, hr, hrk⟩ := List.mem_map.mp hk2
  obtain ⟨nm, hnm, hshape⟩ :=
    extractRecords_name_shape z domain rdclass rdtype r hr
  exact ⟨nm, hnm, by rw [← hrk, hshape]⟩

/-! ### Claims -/

/-- Claim C1, corrected.  When the same owner name appears more than once in
the record sequence, the stored TTL is that of the FIRST record of that name:
line 123 writes the ttl key only when the entry is created, and the
already-present branch of line 119 never touches it.  The spec's
last-write-wins reading is refuted by C1_counterexample. -/
theorem C1_ttl_first_write_wins (recs : List Rec) (n : String) (r₀ : Rec)
    (h : firstRec n recs = some r₀) :
    ∃ e, lookupA (aggregate recs) n = some e ∧ e.ttl = r₀.ttl := by
  have hl := foldlAgg_lookup_new recs [] n r₀ rfl h
  simp only [aggregate]
  exact ⟨_, hl, rfl⟩

/-- Claim C1, counterexample to the claim as stated: the name appears with
TTL 300 first and TTL 60 second, and the aggregated entry keeps 300, not the
last-seen 60. -/
theorem C1_counterexample :
    (lookupA (aggregate recsTTL) "a.example.com.").map AggEntry.ttl
      = some 300 ∧ (300 : Nat) ≠ 60 :=
  ⟨rfl, by decide⟩

/-- Claim C1, witness: the amended theorem applied to the two-record sequence
with conflicting TTLs. -/
theorem C1_witness :
    firstRec "a.example.com." recsTTL
      = some ⟨"a.example.com.", "10.0.0.1", 300⟩ ∧
    ∃ e, lookupA (aggregate recsTTL) "a.example.com." = some e
      ∧ e.ttl = (⟨"a.example.com.", "10.0.0.1", 300⟩ : Rec).ttl :=
  ⟨rfl, C1_ttl_first_write_wins recsTTL "a.example.com."
    ⟨"a.example.com.", "10.0.0.1", 300⟩ rfl⟩

/-- Claim C2: the aggregation dict has exactly one entry per distinct owner
name of the extracted record sequence, keyed by fully-qualified owner name in
first-seen order with no duplicate keys, and every entry's value list is
exactly the values of the records carrying that name, in first-seen order. -/
theorem C2_aggregator_grouping (z : Zone) (domain : String)
    (rdclass rdtype : Nat) :
    keysOf (buildADict z domain rdclass rdtype)
      = firstSeen ((extractRecords z domain rdclass rdtype).map Rec.name) ∧
    (keysOf (buildADict z domain rdclass rdtype)).Nodup ∧
    ∀ n e, lookupA (buildADict z domain rdclass rdtype) n = some e →
      e.records = valuesOf n (extractRecords z domain rdclass rdtype) := by
  have hkeys : keysOf (buildADict z domain rdclass rdtype)
      = firstSeen ((extractRecords z domain rdclass rdtype).map Rec.name) := by
    rw [buildADict_eq_aggregate]
    simp only [aggregate]
    rw [foldlAgg_keys]
    simp [keysOf, firstSeen]
  refine ⟨hkeys, ?_, ?_⟩
  · rw [hkeys]
    exact firstSeenAux_nodup _ []
  · intro n e he
    rw [buildADict_eq_aggregate] at he
    simp only [aggregate] at he
    cases hf : firstRec n (extractRecords z domain rdclass rdtype) with
    | none =>
      have habs :=
        foldlAgg_lookup_absent (extractRecords z domain rdclass rdtype) [] n rfl hf
      rw [habs] at he
      exact Option.noConfusion he
    | some r₀ =>
      have hl :=
        foldlAgg_lookup_new (extractRecords z domain rdclass rdtype) [] n r₀ rfl hf
      rw [hl] at he
      cases he
      rfl

/-- Claim C2, witness: the aggregated entry of host1.example.com. in the
sample zone holds exactly the extracted values of that name. -/
theorem C2_witness :
    lookupA (buildADict zoneA "example.com" 1 1) "host1.example.com."
      = some ⟨["10.0.0.1"], 300⟩ ∧
    (⟨["10.0.0.1"], 300⟩ : AggEntry).records
      = valuesOf "host1.example.com." (extractRecords zoneA "example.com" 1 1) :=
  ⟨rfl, (C2_aggregator_grouping zoneA "example.com" 1 1).2.2
    "host1.example.com." ⟨["10.0.0.1"], 300⟩ rfl⟩

/-- Claim C3, corrected.  For every change list the code produces
max(ceil(L/98), 1) batches: the ceil(L/98) of the claim holds for every
nonempty list, but the else branch of lines 157-161 submits one batch even
for the empty list (see C3_counterexample).  Every batch has at most 98
operations and the concatenation of the batches in order is the original
list (nothing reordered, dropped or duplicated). -/
theorem C3_batch_partition (changes : List ChangeOp) :
    (buildBatches changes).length = max ((changes.length + 97) / 98) 1 ∧
    (∀ b ∈ buildBatches changes, b.length ≤ 98) ∧
    (buildBatches changes).flatten = changes := by
  unfold buildBatches
  by_cases h : changes.length > 98
  · simp only [if_pos h]
    refine ⟨?_, chunks98_sizes changes, chunks98_flatten changes⟩
    rw [chunks98_length]
    omega
  · simp only [if_neg h]
    refine ⟨?_, ?_, by simp⟩
    · simp only [List.length_singleton]
      omega
    · intro b hb
      simp only [List.mem_singleton] at hb
      subst hb
      omega

/-- Claim C3, counterexample to the claim as stated: at the empty list the
Batch Builder produces 1 batch while ceil(0/98) = 0. -/
theorem C3_counterexample :
    (buildBatches ([] : List ChangeOp)).length = 1 ∧
    ((([] : List ChangeOp)).length + 97) / 98 = 0 ∧ (1 : Nat) ≠ 0 :=
  ⟨rfl, rfl, by decide⟩

/-- Claim C3, witness: the amended theorem applied to a one-element change
list; its single batch is within the size bound. -/
theorem C3_witness : ([chg1] : List ChangeOp).length ≤ 98 :=
  (C3_batch_partition changes1).2.1 [chg1]
    (show [chg1] ∈ [[chg1]] from List.mem_singleton.mpr rfl)

/-- Claim C4, corrected.  Given an empty change list the batching code of
lines 145-161 takes the small-list branch and performs one submission whose
change list is empty — one batch of zero operations, not zero batches
(C4_counterexample).  In the full pipeline this point is unreachable: the
length check of line 137 exits first, so no destination call is made. -/
theorem C4_empty_single_batch : buildBatches ([] : List ChangeOp) = [[]] :=
  rfl

/-- Claim C4, counterexample to the claim as stated: at the empty change
list the Batch Builder does not produce zero batches. -/
theorem C4_counterexample :
    buildBatches ([] : List ChangeOp) ≠ ([] : List (List ChangeOp)) := by
  decide

/-- Claim C5: batches are submitted strictly in index order (the submitted
index list is an initial run 0, 1, 2, ...), and if submission of batch i
fails then no batch with a higher index is ever submitted: the loop of
lines 151-156 has no exception handler, so the first boto3 failure aborts
the run with no retry and no skipping ahead. -/
theorem C5_submission_order (ok : Nat → Bool) (changes : List ChangeOp)
    (i j : Nat) (hfail : ok i = false) (hij : i < j) :
    submitBatches ok (buildBatches changes) 0
      = List.range' 0 (submitBatches ok (buildBatches changes) 0).length ∧
    j ∉ submitBatches ok (buildBatches changes) 0 := by
  refine ⟨submitBatches_eq_range ok (buildBatches changes) 0, ?_⟩
  intro hmem
  have hok := submitBatches_mem_ok ok (buildBatches changes) 0 j hmem i
    (Nat.zero_le i) hij
  rw [hfail] at hok
  exact Bool.noConfusion hok

/-- Claim C5, witness: with a submitter that fails from batch 1 on, batch 2
is never submitted for the sample change list. -/
theorem C5_witness :
    (2 : Nat) ∉ submitBatches (fun n => decide (n = 0)) (buildBatches changes1) 0 :=
  (C5_submission_order (fun n => decide (n = 0)) changes1 1 2 rfl (by decide)).2

/-- Claim C6, corrected.  An unsupported record type never lets the run
reach a destination submission: the result is always an error.  When the
transferred zone is nonempty the error is the unsupported-type failure of
lines 103-105, raised before boto3.client at line 144.  When the zone is
empty, however, the emptiness check of line 71 fires FIRST, so the run fails
with the empty-transfer error instead of the unsupported-type one
(C6_counterexample); either way nothing is submitted. -/
theorem C6_unsupported_type (z : Zone) (domain recordtype : String)
    (bs : List (List ChangeOp)) (h : recordTypeCode recordtype = none) :
    update_records z domain recordtype ≠ .ok bs ∧
    (z.nodes.length ≠ 0 →
      update_records z domain recordtype = .error .unsupportedType) := by
  unfold update_records
  by_cases hz : z.nodes.length = 0
  · rw [if_pos hz]
    exact ⟨fun hc => Except.noConfusion hc, fun hnz => absurd hz hnz⟩
  · rw [if_neg hz, h]
    exact ⟨fun hc => Except.noConfusion hc, fun _ => rfl⟩

/-- Claim C6, counterexample to the claim as stated: requesting the
unsupported type SOA against an empty zone fails with the empty-zone error,
not the unsupported-type configuration error. -/
theorem C6_counterexample :
    recordTypeCode "SOA" = none ∧
    update_records zoneEmpty "example.com" "SOA" = .error .emptyZone ∧
    PipelineError.emptyZone ≠ PipelineError.unsupportedType :=
  ⟨rfl, rfl, by decide⟩

/-- Claim C6, witness: the amended theorem applied to the nonempty sample
zone with requested type SOA. -/
theorem C6_witness :
    recordTypeCode "SOA" = none ∧ zoneA.nodes.length ≠ 0 ∧
    update_records zoneA "example.com" "SOA" = .error .unsupportedType :=
  ⟨rfl, by decide,
    (C6_unsupported_type zoneA "example.com" "SOA" [] rfl).2 (by decide)⟩

/-- Claim C7: a zone with zero nodes makes the pipeline fail with the
empty-zone error of line 71, before the aggregation loop and before any
destination call (the error short-circuits everything after it), and that
failure is distinct from the no-matching-records failure of line 137 raised
when nodes exist but none match the requested type. -/
theorem C7_empty_zone (z : Zone) (domain recordtype : String)
    (h : z.nodes.length = 0) :
    update_records z domain recordtype = .error .emptyZone ∧
    PipelineError.emptyZone ≠ PipelineError.noMatchingRecords := by
  refine ⟨?_, by decide⟩
  unfold update_records
  rw [if_pos h]

/-- Claim C7, witness: the theorem applied to the empty sample zone. -/
theorem C7_witness :
    zoneEmpty.nodes.length = 0 ∧
    update_records zoneEmpty "example.com" "A" = .error .emptyZone :=
  ⟨rfl, (C7_empty_zone zoneEmpty "example.com" "A" rfl).1⟩

/-- Claim C8: the change list pairs the aggregation entries one-to-one, in
order, each change carrying action UPSERT, the aggregated key as name, the
requested type string, the stored TTL and the accumulated value list; and
every aggregated key is a fully-qualified name nm.domain. built from a
non-apex owner name. -/
theorem C8_change_mapping (z : Zone) (domain : String) (rdclass rdtype : Nat)
    (recordtype : String) :
    List.Forall₂ (fun (p : String × AggEntry) (c : ChangeOp) =>
        c.action = "UPSERT" ∧ c.name = p.1 ∧ c.rtype = recordtype ∧
        c.ttl = p.2.ttl ∧ c.values = p.2.records)
      (buildADict z domain rdclass rdtype)
      (buildChanges (buildADict z domain rdclass rdtype) recordtype) ∧
    ∀ k e, (k, e) ∈ buildADict z domain rdclass rdtype →
      ∃ nm, ¬ nm = "@" ∧ k = nm ++ "." ++ domain ++ "." :=
  ⟨buildChanges_forall2 _ _, buildADict_key_shape z domain rdclass rdtype⟩

/-- Claim C8, witness: the key-shape part of the theorem applied to the
sample zone's single aggregated entry. -/
theorem C8_witness :
    ("host1.example.com.", (⟨["10.0.0.1"], 300⟩ : AggEntry))
        ∈ buildADict zoneA "example.com" 1 1 ∧
    ∃ nm, ¬ nm = "@" ∧ "host1.example.com." = nm ++ "." ++ "example.com" ++ "." :=
  ⟨by decide, (C8_change_mapping zoneA "example.com" 1 1 "A").2
    "host1.example.com." ⟨["10.0.0.1"], 300⟩ (by decide)⟩

/-- Claim C9: a node whose owner name is the literal apex marker contributes
nothing, however many values its record set holds: removing it changes
neither the extracted record sequence nor the aggregation dict. -/
theorem C9_apex_skipped (ns₁ ns₂ : List (String × DnsNode)) (node : DnsNode)
    (domain : String) (rdclass rdtype : Nat) :
    buildADict ⟨ns₁ ++ ("@", node) :: ns₂⟩ domain rdclass rdtype
      = buildADict ⟨ns₁ ++ ns₂⟩ domain rdclass rdtype ∧
    extractRecords ⟨ns₁ ++ ("@", node) :: ns₂⟩ domain rdclass rdtype
      = extractRecords ⟨ns₁ ++ ns₂⟩ domain rdclass rdtype := by
  have hext : extractRecords ⟨ns₁ ++ ("@", node) :: ns₂⟩ domain rdclass rdtype
      = extractRecords ⟨ns₁ ++ ns₂⟩ domain rdclass rdtype := by
    simp [extractRecords, nodeRecords_apex]
  exact ⟨by rw [buildADict_eq_aggregate, buildADict_eq_aggregate, hext], hext⟩

/-- Claim C10: the pipeline from zone to batch list is deterministic — two
runs over the same zone with the same configuration that both succeed yield
the same batch list (the pipeline is a pure function of the zone and the
configuration; it keeps no state across runs). -/
theorem C10_deterministic (z : Zone) (domain recordtype : String)
    (b₁ b₂ : List (List ChangeOp))
    (h₁ : update_records z domain recordtype = .ok b₁)
    (h₂ : update_records z domain recordtype = .ok b₂) : b₁ = b₂ :=
  Except.ok.inj (h₁.symm.trans h₂)

/-- Claim C10, witness: two evaluations of the pipeline on the sample zone
both give the singleton batch list. -/
theorem C10_witness :
    update_records zoneA "example.com" "A" = .ok [[chg1]] ∧
    ([[chg1]] : List (List ChangeOp)) = [[chg1]] :=
  ⟨rfl, C10_deterministic zoneA "example.com" "A" [[chg1]] [[chg1]] rfl rfl⟩
